import Mathlib

/-!
Verification of the resume-scanner pipeline (src/app.py, src/app2.py).

The development shallowly embeds the two Streamlit pipelines:
text extraction with a pdfplumber/fitz fallback, the Groq model call
(treated as an opaque capability producing an optional response string),
`convert_llm_output_to_dict` (code-fence stripping + `json.loads`),
`save_to_json` (the flat-file archive) and `save_to_chromadb`
(the dedup-by-derived-key vector-store sink).

Python's `json` module is modelled by an executable printer/parser pair
over the spec's StructuredRecord value space (strings, sequences, and
object-like mappings), together with a recogniser (`jsonAccepts`) for the
full `json.loads` grammar — numbers, booleans, `null`, the
`NaN`/`Infinity` constants, the complete string-escape set — that
captures exactly when `json.loads` succeeds.  `json.dumps` has two call
shapes in the source: compact (default separators) and `indent=4`; both
are modelled.
-/

namespace ResumeScanner

/-! ### Character constants (written via code points) -/

def cQuote : Char := Char.ofNat 34
def cBackslash : Char := Char.ofNat 92
def cBacktick : Char := Char.ofNat 96
def cLBrace : Char := Char.ofNat 123
def cRBrace : Char := Char.ofNat 125
def cLBrack : Char := Char.ofNat 91
def cRBrack : Char := Char.ofNat 93
def cComma : Char := Char.ofNat 44
def cColon : Char := Char.ofNat 58
def cSpace : Char := Char.ofNat 32
def cNewline : Char := Char.ofNat 10
def cTab : Char := Char.ofNat 9
def cCR : Char := Char.ofNat 13
def cUnderscore : Char := Char.ofNat 95
def cLetterJ : Char := Char.ofNat 106
def cLetterS : Char := Char.ofNat 115
def cLetterO : Char := Char.ofNat 111
def cLetterN : Char := Char.ofNat 110
def cLetterB : Char := Char.ofNat 98
def cLetterF : Char := Char.ofNat 102
def cLetterR : Char := Char.ofNat 114
def cLetterT : Char := Char.ofNat 116
def cLetterU : Char := Char.ofNat 117
def cLetterE : Char := Char.ofNat 101
def cCapE : Char := Char.ofNat 69
def cSlash : Char := Char.ofNat 47
def cDot : Char := Char.ofNat 46
def cMinus : Char := Char.ofNat 45
def cPlus : Char := Char.ofNat 43
def cDigit0 : Char := Char.ofNat 48
def cBackspace : Char := Char.ofNat 8
def cFormfeed : Char := Char.ofNat 12

/-- ASCII whitespace recognised both by `str.strip` and by the JSON parser. -/
def isWsC (c : Char) : Bool :=
  c == cSpace || c == cNewline || c == cTab || c == cCR

/-- Drop leading whitespace (the front half of Python's `str.strip`, and the
inter-token skipping of `json.loads`). -/
def skipWs : List Char → List Char
  | [] => []
  | c :: cs => if isWsC c then skipWs cs else c :: cs

/-- Python's `str.strip()` on a character list: whitespace removed from both ends. -/
def stripWsBoth (l : List Char) : List Char :=
  (skipWs (skipWs l).reverse).reverse

/-! ### StructuredRecord: the JSON-like value space of the pipeline

Per the spec's data model, a StructuredRecord is "a mapping from field name
to value (strings, nested mappings, or sequences)". -/

inductive Json where
  | str (s : String)
  | arr (elems : List Json)
  | obj (fields : List (String × Json))
deriving Inhabited

mutual

/-- Fuel measure for the parser: every constructor and every list element
costs one unit. -/
def jsize : Json → Nat
  | .str _ => 1
  | .arr xs => 1 + jsizeL xs
  | .obj fs => 1 + jsizeF fs

/-- Fuel measure of array elements. -/
def jsizeL : List Json → Nat
  | [] => 0
  | x :: xs => 1 + jsize x + jsizeL xs

/-- Fuel measure of object fields. -/
def jsizeF : List (String × Json) → Nat
  | [] => 0
  | f :: fs => 1 + jsize f.2 + jsizeF fs

end

/-! ### Serialisation (`json.dumps`) -/

/-- Lowercase hexadecimal digit character for `n < 16`. -/
def hexDigit (n : Nat) : Char :=
  if n < 10 then Char.ofNat (48 + n) else Char.ofNat (87 + n)

/-- String-content escaping performed by `json.dumps`: the quote, the
backslash and the named control-character escapes, with `\u00XX`
(lowercase hex) for the remaining characters below 0x20.  (Characters at
or above 0x20 print raw; `json.dumps` with its default `ensure_ascii`
additionally `\u`-escapes non-ASCII characters, an alternative spelling
that `json.loads` decodes back to the same string.) -/
def escChars : List Char → List Char
  | [] => []
  | c :: cs =>
    if c == cQuote then cBackslash :: cQuote :: escChars cs
    else if c == cBackslash then cBackslash :: cBackslash :: escChars cs
    else if c == cNewline then cBackslash :: cLetterN :: escChars cs
    else if c == cTab then cBackslash :: cLetterT :: escChars cs
    else if c == cCR then cBackslash :: cLetterR :: escChars cs
    else if c == cBackspace then cBackslash :: cLetterB :: escChars cs
    else if c == cFormfeed then cBackslash :: cLetterF :: escChars cs
    else if c.toNat < 32 then
      cBackslash :: cLetterU :: cDigit0 :: cDigit0
        :: hexDigit (c.toNat / 16) :: hexDigit (c.toNat % 16) :: escChars cs
    else c :: escChars cs

/-- Whitespace decorations distinguishing `json.dumps(x)` from
`json.dumps(x, indent=4)`: padding after an opening bracket, after an item
comma, and before a closing bracket, each as a function of nesting level. -/
structure PadStyle where
  openPad : Nat → List Char
  sepPad : Nat → List Char
  closePad : Nat → List Char

mutual

/-- Serialise one value at a nesting level (children print one level deeper). -/
def printV (P : PadStyle) (lvl : Nat) : Json → List Char
  | .str s => cQuote :: (escChars s.data ++ [cQuote])
  | .arr [] => [cLBrack, cRBrack]
  | .arr (x :: xs) =>
      cLBrack :: (P.openPad lvl ++ printV P (lvl + 1) x ++ printL P (lvl + 1) xs
        ++ P.closePad lvl ++ [cRBrack])
  | .obj [] => [cLBrace, cRBrace]
  | .obj (f :: fs) =>
      cLBrace :: (P.openPad lvl
        ++ (cQuote :: (escChars f.1.data ++ [cQuote]))
        ++ (cColon :: cSpace :: printV P (lvl + 1) f.2)
        ++ printF P (lvl + 1) fs
        ++ P.closePad lvl ++ [cRBrace])

/-- Serialise the remaining elements of a non-empty array (each preceded by a comma). -/
def printL (P : PadStyle) (lvl : Nat) : List Json → List Char
  | [] => []
  | x :: xs => cComma :: (P.sepPad lvl ++ printV P lvl x ++ printL P lvl xs)

/-- Serialise the remaining fields of a non-empty object (each preceded by a comma). -/
def printF (P : PadStyle) (lvl : Nat) : List (String × Json) → List Char
  | [] => []
  | f :: fs =>
      cComma :: (P.sepPad lvl
        ++ (cQuote :: (escChars f.1.data ++ [cQuote]))
        ++ (cColon :: cSpace :: printV P lvl f.2)
        ++ printF P lvl fs)

end

/-- Padding of `json.dumps(x)`: default separators `", "` and `": "`. -/
def compactPads : PadStyle :=
  ⟨fun _ => [], fun _ => [cSpace], fun _ => []⟩

/-- Four spaces per level. -/
def indentChars (n : Nat) : List Char := List.replicate (4 * n) cSpace

/-- Padding of `json.dumps(x, indent=4)`: newline-plus-indent after opening
brackets and item commas, newline-plus-outer-indent before closing brackets. -/
def indentPads : PadStyle :=
  ⟨fun lvl => cNewline :: indentChars (lvl + 1),
   fun lvl => cNewline :: indentChars lvl,
   fun lvl => cNewline :: indentChars lvl⟩

/-- Python `json.dumps(value)` (compact, the form stored in the chroma sink
and offered for download). -/
def jsonDumps (v : Json) : String := String.mk (printV compactPads 0 v)

/-- Python `json.dumps(value, indent=4)` (the form written by `save_to_json`). -/
def jsonDumpsIndent (v : Json) : String := String.mk (printV indentPads 0 v)

/-! ### Parsing (`json.loads`) -/

/-- Value of one hexadecimal digit character (either case), as accepted
inside a `\uXXXX` escape. -/
def hexVal (c : Char) : Option Nat :=
  if 48 ≤ c.toNat ∧ c.toNat ≤ 57 then some (c.toNat - 48)
  else if 97 ≤ c.toNat ∧ c.toNat ≤ 102 then some (c.toNat - 87)
  else if 65 ≤ c.toNat ∧ c.toNat ≤ 70 then some (c.toNat - 55)
  else none

/-- Decoding of a two-character escape `\d`, exactly the set `json.loads`
accepts: quote, backslash, solidus, and the five named control escapes. -/
def escDecode (d : Char) : Option Char :=
  if d == cQuote then some cQuote
  else if d == cBackslash then some cBackslash
  else if d == cSlash then some cSlash
  else if d == cLetterB then some cBackspace
  else if d == cLetterF then some cFormfeed
  else if d == cLetterN then some cNewline
  else if d == cLetterR then some cCR
  else if d == cLetterT then some cTab
  else none

/-- JSON string content after the opening quote, up to the unescaped
closing quote — exactly `json.loads`'s string lexing in its default strict
mode: raw characters at or above 0x20, the two-character escapes of
`escDecode`, and `\uXXXX` with four hex digits; raw characters below 0x20
are rejected.  (A `\uXXXX` whose code point is not a Lean scalar value — a
lone surrogate — decodes to the `Char.ofNat` fallback; acceptance, which
is all the failure-set results rely on, is unaffected.)  The first match
arm gives the `\uXXXX` lookahead room; the second covers the remaining
short inputs, where a `\u` can never have four hex digits left. -/
def parseStrAux : List Char → Option (List Char × List Char)
  | c :: d :: h1 :: h2 :: h3 :: h4 :: cs3 =>
    if c == cQuote then some ([], d :: h1 :: h2 :: h3 :: h4 :: cs3)
    else if c == cBackslash then
      if d == cLetterU then
        match hexVal h1, hexVal h2, hexVal h3, hexVal h4 with
        | some a, some b, some e, some f =>
          match parseStrAux cs3 with
          | some p => some (Char.ofNat (((a * 16 + b) * 16 + e) * 16 + f) :: p.1, p.2)
          | none => none
        | _, _, _, _ => none
      else
        match escDecode d with
        | some e =>
          match parseStrAux (h1 :: h2 :: h3 :: h4 :: cs3) with
          | some p => some (e :: p.1, p.2)
          | none => none
        | none => none
    else if c.toNat < 32 then none
    else
      match parseStrAux (d :: h1 :: h2 :: h3 :: h4 :: cs3) with
      | some p => some (c :: p.1, p.2)
      | none => none
  | c :: cs =>
    if c == cQuote then some ([], cs)
    else if c == cBackslash then
      match cs with
      | [] => none
      | d :: cs2 =>
        if d == cLetterU then none
        else
          match escDecode d with
          | some e =>
            match parseStrAux cs2 with
            | some p => some (e :: p.1, p.2)
            | none => none
          | none => none
    else if c.toNat < 32 then none
    else
      match parseStrAux cs with
      | some p => some (c :: p.1, p.2)
      | none => none
  | [] => none

mutual

/-- Parse one JSON value (fuel-indexed; `jsize` units of fuel suffice). -/
def parseVal : Nat → List Char → Option (Json × List Char)
  | 0, _ => none
  | n + 1, cs =>
    match skipWs cs with
    | [] => none
    | c :: cs2 =>
      if c == cQuote then
        match parseStrAux cs2 with
        | some p => some (Json.str (String.mk p.1), p.2)
        | none => none
      else if c == cLBrack then
        match skipWs cs2 with
        | [] => none
        | d :: r =>
          if d == cRBrack then some (Json.arr [], r)
          else
            match parseElems n cs2 with
            | some p => some (Json.arr p.1, p.2)
            | none => none
      else if c == cLBrace then
        match skipWs cs2 with
        | [] => none
        | d :: r =>
          if d == cRBrace then some (Json.obj [], r)
          else
            match parseFields n cs2 with
            | some p => some (Json.obj p.1, p.2)
            | none => none
      else none

/-- Parse the elements of a non-empty array, consuming the closing bracket. -/
def parseElems : Nat → List Char → Option (List Json × List Char)
  | 0, _ => none
  | n + 1, cs =>
    match parseVal n cs with
    | none => none
    | some (v, r) =>
      match skipWs r with
      | [] => none
      | d :: r2 =>
        if d == cComma then
          match parseElems n r2 with
          | some p => some (v :: p.1, p.2)
          | none => none
        else if d == cRBrack then some ([v], r2)
        else none

/-- Parse the fields of a non-empty object, consuming the closing brace. -/
def parseFields : Nat → List Char → Option (List (String × Json) × List Char)
  | 0, _ => none
  | n + 1, cs =>
    match skipWs cs with
    | [] => none
    | c :: cs2 =>
      if c == cQuote then
        match parseStrAux cs2 with
        | none => none
        | some (k, r1) =>
          match skipWs r1 with
          | [] => none
          | d :: r2 =>
            if d == cColon then
              match parseVal n r2 with
              | none => none
              | some (v, r3) =>
                match skipWs r3 with
                | [] => none
                | e :: r4 =>
                  if e == cComma then
                    match parseFields n r4 with
                    | some p => some ((String.mk k, v) :: p.1, p.2)
                    | none => none
                  else if e == cRBrace then some ([(String.mk k, v)], r4)
                  else none
            else none
      else none

end

/-- Python `json.loads` on a character list, producing values: a single
value, optionally surrounded by whitespace; anything else is a decode
error (`none`).  This value-producing side is restricted to the spec's
StructuredRecord space (strings, sequences, mappings); `jsonAccepts`
below recognises the full `json.loads` grammar (numbers, booleans,
`null`, `NaN`/`Infinity`), and `valid_of_parse` shows every input this
parser accepts is accepted by the full grammar, so parse-failure results
are stated against `jsonAccepts`. -/
def jsonLoadsChars (cs : List Char) : Option Json :=
  match parseVal (cs.length + 1) cs with
  | some (v, r) => if (skipWs r).isEmpty then some v else none
  | none => none

/-- Python `json.loads` on a string. -/
def jsonLoads (s : String) : Option Json := jsonLoadsChars s.data

/-! ### Acceptance of `json.loads` (the full grammar)

`parseVal` produces values for the spec's StructuredRecord space (strings,
sequences, mappings).  `json.loads` additionally accepts numbers, the
literals `true`/`false`/`null` and (by its default `parse_constant`)
`NaN`/`Infinity`/`-Infinity`.  The recogniser below captures exactly when
`json.loads` succeeds — the program's parse-failure boundary — and
`validVal_of_parseVal` shows the value parser accepts only inputs the
recogniser accepts. -/

/-- Decimal digit. -/
def isDigitC (c : Char) : Bool := 48 ≤ c.toNat && c.toNat ≤ 57

/-- Non-zero decimal digit (a JSON integer part is `0` or starts with
`1`-`9`). -/
def isDigit19 (c : Char) : Bool := 49 ≤ c.toNat && c.toNat ≤ 57

/-- Consume a (possibly empty) run of digits. -/
def dropDigits : List Char → List Char
  | c :: cs => if isDigitC c then dropDigits cs else c :: cs
  | [] => []

/-- Consume the optional fraction group of a JSON number: a dot followed
by at least one digit; consumes nothing when the group does not match. -/
def validFrac : List Char → List Char
  | c :: d :: r => if c == cDot && isDigitC d then dropDigits r else c :: d :: r
  | cs => cs

/-- Consume the optional exponent group: `e`/`E`, optional sign, at least
one digit; consumes nothing when the group does not match. -/
def validExp : List Char → List Char
  | c :: d :: r =>
    if c == cLetterE || c == cCapE then
      if isDigitC d then dropDigits r
      else
        match r with
        | d2 :: r2 =>
          if (d == cPlus || d == cMinus) && isDigitC d2 then dropDigits r2
          else c :: d :: r
        | [] => c :: d :: r
    else c :: d :: r
  | cs => cs

/-- A JSON number after the optional minus sign, per `json.loads`'s
number pattern: integer part `0` or `[1-9][0-9]*`, then the optional
fraction and exponent groups. -/
def validNumBody : List Char → Option (List Char)
  | c :: cs2 =>
    if c == cDigit0 then some (validExp (validFrac cs2))
    else if isDigit19 c then some (validExp (validFrac (dropDigits cs2)))
    else none
  | [] => none

/-- The scalar tokens `json.loads` accepts besides strings, arrays and
objects: `true`, `false`, `null`, the constants `NaN`, `Infinity` and
`-Infinity`, and numbers. -/
def validScalar (cs : List Char) : Option (List Char) :=
  if cs.take 4 = "true".data then some (cs.drop 4)
  else if cs.take 5 = "false".data then some (cs.drop 5)
  else if cs.take 4 = "null".data then some (cs.drop 4)
  else if cs.take 3 = "NaN".data then some (cs.drop 3)
  else if cs.take 8 = "Infinity".data then some (cs.drop 8)
  else
    match cs with
    | c :: cs2 =>
      if c == cMinus then
        if cs2.take 8 = "Infinity".data then some (cs2.drop 8)
        else validNumBody cs2
      else validNumBody (c :: cs2)
    | [] => none

mutual

/-- Recognise one JSON value (any value `json.loads` accepts), returning
the unconsumed remainder.  Mirrors `parseVal`, with `validScalar` for the
tokens outside the record space; string content goes through the same
`parseStrAux` lexer. -/
def validVal : Nat → List Char → Option (List Char)
  | 0, _ => none
  | n + 1, cs =>
    match skipWs cs with
    | [] => none
    | c :: cs2 =>
      if c == cQuote then
        match parseStrAux cs2 with
        | some p => some p.2
        | none => none
      else if c == cLBrack then
        match skipWs cs2 with
        | [] => none
        | d :: r =>
          if d == cRBrack then some r
          else validElems n cs2
      else if c == cLBrace then
        match skipWs cs2 with
        | [] => none
        | d :: r =>
          if d == cRBrace then some r
          else validFields n cs2
      else validScalar (c :: cs2)

/-- Recognise the elements of a non-empty array. -/
def validElems : Nat → List Char → Option (List Char)
  | 0, _ => none
  | n + 1, cs =>
    match validVal n cs with
    | none => none
    | some r =>
      match skipWs r with
      | [] => none
      | d :: r2 =>
        if d == cComma then validElems n r2
        else if d == cRBrack then some r2
        else none

/-- Recognise the fields of a non-empty object. -/
def validFields : Nat → List Char → Option (List Char)
  | 0, _ => none
  | n + 1, cs =>
    match skipWs cs with
    | [] => none
    | c :: cs2 =>
      if c == cQuote then
        match parseStrAux cs2 with
        | none => none
        | some (_, r1) =>
          match skipWs r1 with
          | [] => none
          | d :: r2 =>
            if d == cColon then
              match validVal n r2 with
              | none => none
              | some r3 =>
                match skipWs r3 with
                | [] => none
                | e :: r4 =>
                  if e == cComma then validFields n r4
                  else if e == cRBrace then some r4
                  else none
            else none
      else none

end

/-- Left-to-right removal of every fence-marker occurrence, exactly as the
regex substitution performs it. -/
def stripFencesAux : List Char → List Char
  | a :: b :: c :: j :: s2 :: o :: n2 :: rest2 =>
    if a == cBacktick && b == cBacktick && c == cBacktick then
      if j == cLetterJ && s2 == cLetterS && o == cLetterO && n2 == cLetterN then
        stripFencesAux rest2
      else stripFencesAux (j :: s2 :: o :: n2 :: rest2)
    else a :: stripFencesAux (b :: c :: j :: s2 :: o :: n2 :: rest2)
  | a :: b :: c :: rest =>
    if a == cBacktick && b == cBacktick && c == cBacktick then
      stripFencesAux rest
    else a :: stripFencesAux (b :: c :: rest)
  | a :: rest => a :: stripFencesAux rest
  | [] => []

/-- Whether a character list still contains three consecutive backticks
(an un-stripped fence delimiter). -/
def hasTriple : List Char → Bool
  | a :: b :: c :: rest =>
    (a == cBacktick && b == cBacktick && c == cBacktick) || hasTriple (b :: c :: rest)
  | _ => false

/-- app.py lines 55-61: strip fence markers, `strip()` surrounding
whitespace, `json.loads` the remainder; a decode error is caught and
reported, yielding `None`. -/
def convert_llm_output_to_dict (llm_output : String) : Option Json :=
  jsonLoadsChars (stripWsBoth (stripFencesAux llm_output.data))

/-! ### Python truthiness -/

/-- Python truthiness of a parsed JSON value (`if structured_data:`,
`if not resume_dict:`): empty strings, arrays and objects are falsy. -/
def pyTruthy : Json → Bool
  | .str s => !s.data.isEmpty
  | .arr xs => !xs.isEmpty
  | .obj fs => !fs.isEmpty

/-- Python truthiness of an optional string (`if not resume_text:`,
`if extracted_info:`): `None` and the empty string are falsy. -/
def pyTruthyOptStr : Option String → Bool
  | none => false
  | some s => !s.data.isEmpty

/-! ### Derived-key normalisation (app2.py line 84) -/

/-- ASCII case lowering, the fragment of Python's `str.lower` exercised here. -/
def lowerAscii (c : Char) : Char :=
  if 65 ≤ c.toNat ∧ c.toNat ≤ 90 then Char.ofNat (c.toNat + 32) else c

/-- Python `s.lower()`. -/
def pyLower (s : String) : String := String.mk (s.data.map lowerAscii)

/-- Single-character substitution underlying `s.replace(' ', '_')`. -/
def spaceToUnderscore (c : Char) : Char := if c == cSpace then cUnderscore else c

/-- Python `s.replace(' ', '_')`: a one-character pattern replacement is a
character-wise map. -/
def pyReplaceSpaceUnderscore (s : String) : String :=
  String.mk (s.data.map spaceToUnderscore)

/-- app2.py line 84:
`resume_dict.get("name", "Unknown").replace(' ', '_').lower()`.
`none` marks the paths on which the Python expression raises (a non-mapping
`resume_dict`, whose `.get` raises, or a non-string name value, whose
`.replace` raises); the caller's `except` block catches those. -/
def candidate_name_of (resume_dict : Json) : Option String :=
  match resume_dict with
  | .obj fields =>
    match fields.lookup "name" with
    | some (Json.str s) => some (pyLower (pyReplaceSpaceUnderscore s))
    | some _ => none
    | none => some (pyLower (pyReplaceSpaceUnderscore "Unknown"))
  | _ => none

/-- Modelled from the spec: section 4.4 step 2 words the derivation as
"Derive candidate key: the \"name\" field if present else \"Unknown\";
lower-case; replace spaces with underscores" — that is, lower-casing first
and replacing spaces afterwards.  Stated separately from
`candidate_name_of` (the code's replace-then-lower order) so the two can
be compared. -/
def specDerivedKey (resume_dict : Json) : Option String :=
  match resume_dict with
  | .obj fields =>
    match fields.lookup "name" with
    | some (Json.str s) => some (pyReplaceSpaceUnderscore (pyLower s))
    | some _ => none
    | none => some (pyReplaceSpaceUnderscore (pyLower "Unknown"))
  | _ => none

/-! ### IndexedStoreSink (`save_to_chromadb`, app2.py lines 74-99) -/

/-- One entry of the chroma collection: identifier, serialised document
body, and the `name` metadata value.  The embedding vector is computed by
an opaque external capability and plays no role in the dedup semantics, so
it is not carried. -/
structure ChromaEntry where
  id : String
  document : String
  metaName : Json

/-- Observable outcome of one `save_to_chromadb` call (the status message
the function emits before returning). -/
inductive ChromaOutcome where
  | noData
  | parseFailed
  | skippedDuplicate (key : String)
  | inserted (key : String)
  | errorCaught

/-- Metadata value `resume_dict.get("name", "Unknown")` stored alongside an
inserted entry (only reached when the record is a mapping). -/
def dict_get_name (resume_dict : Json) : Json :=
  match resume_dict with
  | .obj fields => (fields.lookup "name").getD (Json.str "Unknown")
  | _ => Json.str "Unknown"

/-- app2.py lines 74-99.  `collection.peek()["ids"]` is modelled as the
listing of all stored identifiers (the spec's "query the collection for
all existing identifiers"); `collection.add` appends one entry.  The
surrounding `except Exception` turns any raised error into a reported
failure without mutating the collection (`errorCaught`). -/
def save_to_chromadb (coll : List ChromaEntry) (data : String) :
    List ChromaEntry × ChromaOutcome :=
  if data.data.isEmpty then (coll, .noData)
  else
    match convert_llm_output_to_dict data with
    | none => (coll, .parseFailed)
    | some resume_dict =>
      if !pyTruthy resume_dict then (coll, .parseFailed)
      else
        match candidate_name_of resume_dict with
        | none => (coll, .errorCaught)
        | some candidate_name =>
          if candidate_name ∈ coll.map (fun e => e.id) then
            (coll, .skippedDuplicate candidate_name)
          else
            (coll ++ [⟨candidate_name, jsonDumps resume_dict, dict_get_name resume_dict⟩],
             .inserted candidate_name)

/-- Collection state after a sequence of `save_to_chromadb` calls. -/
def upsertAll (coll : List ChromaEntry) (ds : List String) : List ChromaEntry :=
  ds.foldl (fun c d => (save_to_chromadb c d).1) coll

/-! ### FlatFileSink (`save_to_json`, app.py lines 63-78)

The file system is a single optional file content (`none` = the target
file does not exist). -/

/-- app.py lines 63-78: read the archive if present (an unparseable archive
is recovered as the empty list), append the record, rewrite the whole file
with `indent=4`.  `Except.error` marks the path on which the archive
parses to a non-list and `resumes.append` raises an uncaught
`AttributeError`. -/
def save_to_json (existing : Option String) (data : Json) : Except Unit String :=
  match existing with
  | none => .ok (jsonDumpsIndent (Json.arr [data]))
  | some content =>
    match jsonLoads content with
    | none => .ok (jsonDumpsIndent (Json.arr [data]))
    | some (Json.arr resumes) => .ok (jsonDumpsIndent (Json.arr (resumes ++ [data])))
    | some _ => .error ()

/-- Sequential `save_to_json` calls threading the file state. -/
def appendAllRecords : Option String → List Json → Except Unit (Option String)
  | st, [] => .ok st
  | st, r :: rs =>
    match save_to_json st r with
    | .error e => .error e
    | .ok c => appendAllRecords (some c) rs

/-! ### TextExtractor (app.py lines 20-38) -/

/-- One uploaded PDF, through the eyes of the two parsing capabilities.
`plumberPages` lists `page.extract_text()` results (`none` when a page
yields no text); `fitzPages` lists `page.get_text()` results (always a
string).  `Except.error` models an exception raised while opening or
iterating the document, caught by the strategy's `try` block. -/
structure PdfInput where
  plumberPages : Except Unit (List (Option String))
  fitzPages : Except Unit (List String)

/-- `"".join(page.extract_text() or "" for page in pdf.pages)`. -/
def joinedPlumber (pages : List (Option String)) : String :=
  String.mk (pages.map (fun p => (p.getD "").data)).flatten

/-- `"".join(page.get_text() for page in doc)`. -/
def joinedFitz (pages : List String) : String :=
  String.mk (pages.map String.data).flatten

/-- app.py lines 20-28: primary strategy; returns the concatenated text
only when its `strip()` is non-empty, `None` otherwise (also on an
internal exception). -/
def extract_text_with_pdfplumber (pdf : PdfInput) : Option String :=
  match pdf.plumberPages with
  | .error _ => none
  | .ok pages =>
    let text := joinedPlumber pages
    if !(stripWsBoth text.data).isEmpty then some text else none

/-- app.py lines 30-38: fallback strategy, same emptiness check. -/
def extract_text_with_fitz (pdf : PdfInput) : Option String :=
  match pdf.fitzPages with
  | .error _ => none
  | .ok pages =>
    let text := joinedFitz pages
    if !(stripWsBoth text.data).isEmpty then some text else none

/-! ### The app.py module-level pipeline (lines 86-124) -/

/-- Observable outcome of one app.py run.  `tempRemoved` records whether
`os.remove(temp_path)` (line 124) executed; `crashed` records an uncaught
exception aborting the script run before reaching it. -/
structure AppResult where
  fitzTried : Bool
  modelCalled : Bool
  noTextError : Bool
  successShown : Bool
  persisted : Bool
  archive : Option String
  tempRemoved : Bool
  crashed : Bool

/-- app.py lines 86-124, parameterised by the opaque capabilities: the
uploaded PDF and the model response (`none` when the Groq call raised, in
which case `extract_entities_with_groq` reports the error and returns
`None`).  Passing that `None` into `convert_llm_output_to_dict` makes
`re.sub` raise an uncaught `TypeError`; a non-list archive makes
`resumes.append` raise — both abort the run before the line-124 cleanup. -/
def runApp (pdf : PdfInput) (modelResp : Option String) (archive0 : Option String) :
    AppResult :=
  let rA := extract_text_with_pdfplumber pdf
  let fitzTried := !pyTruthyOptStr rA
  let resume_text := if pyTruthyOptStr rA then rA else extract_text_with_fitz pdf
  if !pyTruthyOptStr resume_text then
    ⟨fitzTried, false, true, false, false, archive0, true, false⟩
  else
    match modelResp with
    | none =>
      ⟨fitzTried, true, false, false, false, archive0, false, true⟩
    | some resp =>
      match convert_llm_output_to_dict resp with
      | none =>
        ⟨fitzTried, true, false, false, false, archive0, true, false⟩
      | some structured_data =>
        if pyTruthy structured_data then
          match save_to_json archive0 structured_data with
          | .error _ =>
            ⟨fitzTried, true, false, true, false, archive0, false, true⟩
          | .ok c =>
            ⟨fitzTried, true, false, true, true, some c, true, false⟩
        else
          ⟨fitzTried, true, false, false, false, archive0, true, false⟩

/-! ### Character and whitespace lemmas -/

theorem isWsC_cQuote : isWsC cQuote = false := by decide

theorem isWsC_cLBrack : isWsC cLBrack = false := by decide

theorem isWsC_cRBrack : isWsC cRBrack = false := by decide

theorem isWsC_cLBrace : isWsC cLBrace = false := by decide

theorem isWsC_cRBrace : isWsC cRBrace = false := by decide

theorem isWsC_cComma : isWsC cComma = false := by decide

theorem isWsC_cColon : isWsC cColon = false := by decide

theorem isWsC_cSpace : isWsC cSpace = true := by decide

theorem isWsC_cNewline : isWsC cNewline = true := by decide

theorem skipWs_cons_not_ws (c : Char) (r : List Char) (h : isWsC c = false) :
    skipWs (c :: r) = c :: r := by
  simp [skipWs, h]

theorem skipWs_append_ws (w r : List Char) (hw : ∀ c ∈ w, isWsC c = true) :
    skipWs (w ++ r) = skipWs r := by
  induction w with
  | nil => rfl
  | cons c cs ih =>
    have hc : isWsC c = true := hw c (by simp)
    simp only [List.cons_append, skipWs, hc, if_pos]
    exact ih (fun d hd => hw d (by simp [hd]))

/-! ### String escaping round trip -/

theorem psa_quote (cs : List Char) : parseStrAux (cQuote :: cs) = some ([], cs) := by
  rcases cs with _ | ⟨d, _ | ⟨h1, _ | ⟨h2, _ | ⟨h3, _ | ⟨h4, t⟩⟩⟩⟩⟩ <;> simp [parseStrAux]

theorem psa_esc2 (d e : Char) (cs : List Char) (hu : (d == cLetterU) = false)
    (hd : escDecode d = some e) :
    parseStrAux (cBackslash :: d :: cs)
      = match parseStrAux cs with
        | some p => some (e :: p.1, p.2)
        | none => none := by
  rcases cs with _ | ⟨a, _ | ⟨b, _ | ⟨c2, _ | ⟨d2, t⟩⟩⟩⟩ <;>
    simp [parseStrAux, hu, hd, show (cBackslash == cQuote) = false by decide]

theorem psa_u (h1 h2 h3 h4 : Char) (a b e f : Nat) (cs : List Char)
    (hv1 : hexVal h1 = some a) (hv2 : hexVal h2 = some b)
    (hv3 : hexVal h3 = some e) (hv4 : hexVal h4 = some f) :
    parseStrAux (cBackslash :: cLetterU :: h1 :: h2 :: h3 :: h4 :: cs)
      = match parseStrAux cs with
        | some p => some (Char.ofNat (((a * 16 + b) * 16 + e) * 16 + f) :: p.1, p.2)
        | none => none := by
  simp [parseStrAux, hv1, hv2, hv3, hv4,
    show (cBackslash == cQuote) = false by decide,
    show (cLetterU == cLetterU) = true by decide]

theorem psa_raw (c : Char) (cs : List Char) (h1 : (c == cQuote) = false)
    (h2 : (c == cBackslash) = false) (h3 : ¬c.toNat < 32) :
    parseStrAux (c :: cs)
      = match parseStrAux cs with
        | some p => some (c :: p.1, p.2)
        | none => none := by
  rcases cs with _ | ⟨a, _ | ⟨b, _ | ⟨c2, _ | ⟨d2, _ | ⟨e2, t⟩⟩⟩⟩⟩ <;>
    simp [parseStrAux, h1, h2, h3]

theorem hexVal_hexDigit : ∀ n, n < 16 → hexVal (hexDigit n) = some n := by decide

theorem hexVal_cDigit0 : hexVal cDigit0 = some 0 := by decide

theorem parseStrAux_esc (s rest : List Char) :
    parseStrAux (escChars s ++ cQuote :: rest) = some (s, rest) := by
  induction s generalizing rest with
  | nil =>
    simp only [escChars, List.nil_append]
    exact psa_quote rest
  | cons c cs ih =>
    by_cases h1 : c == cQuote
    · have hc : c = cQuote := eq_of_beq h1
      subst hc
      simp only [escChars, if_pos (beq_self_eq_true cQuote), List.cons_append]
      rw [psa_esc2 cQuote cQuote _ (by decide) (by decide)]
      simp [ih]
    · have h1f : (c == cQuote) = false := by simpa using h1
      by_cases h2 : c == cBackslash
      · have hc : c = cBackslash := eq_of_beq h2
        subst hc
        simp only [escChars, show (cBackslash == cQuote) = false by decide,
          Bool.false_eq_true, if_false, if_pos (beq_self_eq_true cBackslash),
          List.cons_append]
        rw [psa_esc2 cBackslash cBackslash _ (by decide) (by decide)]
        simp [ih]
      · have h2f : (c == cBackslash) = false := by simpa using h2
        by_cases h3 : c == cNewline
        · have hc : c = cNewline := eq_of_beq h3
          subst hc
          simp only [escChars, show (cNewline == cQuote) = false by decide,
            show (cNewline == cBackslash) = false by decide, Bool.false_eq_true, if_false,
            if_pos (beq_self_eq_true cNewline), List.cons_append]
          rw [psa_esc2 cLetterN cNewline _ (by decide) (by decide)]
          simp [ih]
        · have h3f : (c == cNewline) = false := by simpa using h3
          by_cases h4 : c == cTab
          · have hc : c = cTab := eq_of_beq h4
            subst hc
            simp only [escChars, show (cTab == cQuote) = false by decide,
              show (cTab == cBackslash) = false by decide,
              show (cTab == cNewline) = false by decide, Bool.false_eq_true, if_false,
              if_pos (beq_self_eq_true cTab), List.cons_append]
            rw [psa_esc2 cLetterT cTab _ (by decide) (by decide)]
            simp [ih]
          · have h4f : (c == cTab) = false := by simpa using h4
            by_cases h5 : c == cCR
            · have hc : c = cCR := eq_of_beq h5
              subst hc
              simp only [escChars, show (cCR == cQuote) = false by decide,
                show (cCR == cBackslash) = false by decide,
                show (cCR == cNewline) = false by decide,
                show (cCR == cTab) = false by decide, Bool.false_eq_true, if_false,
                if_pos (beq_self_eq_true cCR), List.cons_append]
              rw [psa_esc2 cLetterR cCR _ (by decide) (by decide)]
              simp [ih]
            · have h5f : (c == cCR) = false := by simpa using h5
              by_cases h6 : c == cBackspace
              · have hc : c = cBackspace := eq_of_beq h6
                subst hc
                simp only [escChars, show (cBackspace == cQuote) = false by decide,
                  show (cBackspace == cBackslash) = false by decide,
                  show (cBackspace == cNewline) = false by decide,
                  show (cBackspace == cTab) = false by decide,
                  show (cBackspace == cCR) = false by decide, Bool.false_eq_true, if_false,
                  if_pos (beq_self_eq_true cBackspace), List.cons_append]
                rw [psa_esc2 cLetterB cBackspace _ (by decide) (by decide)]
                simp [ih]
              · have h6f : (c == cBackspace) = false := by simpa using h6
                by_cases h7 : c == cFormfeed
                · have hc : c = cFormfeed := eq_of_beq h7
                  subst hc
                  simp only [escChars, show (cFormfeed == cQuote) = false by decide,
                    show (cFormfeed == cBackslash) = false by decide,
                    show (cFormfeed == cNewline) = false by decide,
                    show (cFormfeed == cTab) = false by decide,
                    show (cFormfeed == cCR) = false by decide,
                    show (cFormfeed == cBackspace) = false by decide, Bool.false_eq_true,
                    if_false, if_pos (beq_self_eq_true cFormfeed), List.cons_append]
                  rw [psa_esc2 cLetterF cFormfeed _ (by decide) (by decide)]
                  simp [ih]
                · have h7f : (c == cFormfeed) = false := by simpa using h7
                  by_cases h8 : c.toNat < 32
                  · simp only [escChars, h1f, h2f, h3f, h4f, h5f, h6f, h7f,
                      Bool.false_eq_true, if_false, if_pos h8, List.cons_append]
                    have hdiv : c.toNat / 16 < 16 := by omega
                    have hmod : c.toNat % 16 < 16 := Nat.mod_lt _ (by omega)
                    rw [show cBackslash :: cLetterU :: cDigit0 :: cDigit0
                          :: hexDigit (c.toNat / 16) :: hexDigit (c.toNat % 16)
                          :: (escChars cs ++ cQuote :: rest)
                        = cBackslash :: cLetterU :: cDigit0 :: cDigit0
                          :: hexDigit (c.toNat / 16) :: hexDigit (c.toNat % 16)
                          :: (escChars cs ++ cQuote :: rest) from rfl]
                    rw [psa_u cDigit0 cDigit0 (hexDigit (c.toNat / 16))
                      (hexDigit (c.toNat % 16)) 0 0 (c.toNat / 16) (c.toNat % 16) _
                      hexVal_cDigit0 hexVal_cDigit0
                      (hexVal_hexDigit _ hdiv) (hexVal_hexDigit _ hmod)]
                    have hval : ((0 * 16 + 0) * 16 + c.toNat / 16) * 16 + c.toNat % 16
                        = c.toNat := by omega
                    rw [hval, Char.ofNat_toNat]
                    simp [ih]
                  · simp only [escChars, h1f, h2f, h3f, h4f, h5f, h6f, h7f,
                      Bool.false_eq_true, if_false, if_neg h8, List.cons_append]
                    rw [psa_raw c _ h1f h2f h8]
                    simp [ih]

/-! ### Whitespace-only padding styles -/

/-- A character list consisting solely of whitespace. -/
def WsList (w : List Char) : Prop := ∀ c ∈ w, isWsC c = true

/-- A padding style whose decorations are all whitespace (true of both
`json.dumps` call shapes in the source). -/
structure WsPads (P : PadStyle) : Prop where
  openW : ∀ lvl, WsList (P.openPad lvl)
  sepW : ∀ lvl, WsList (P.sepPad lvl)
  closeW : ∀ lvl, WsList (P.closePad lvl)

theorem wsPads_compact : WsPads compactPads := by
  refine ⟨?_, ?_, ?_⟩ <;> intro lvl c hc
  · simp [compactPads] at hc
  · simp only [compactPads, List.mem_singleton] at hc
    rw [hc]
    decide
  · simp [compactPads] at hc

theorem wsList_indent (lvl : Nat) : WsList (cNewline :: indentChars lvl) := by
  intro c hc
  simp only [indentChars, List.mem_cons, List.mem_replicate] at hc
  rcases hc with h | h
  · subst h; decide
  · rw [h.2]; decide

theorem wsPads_indent : WsPads indentPads :=
  ⟨fun lvl => wsList_indent (lvl + 1), fun lvl => wsList_indent lvl,
   fun lvl => wsList_indent lvl⟩

theorem wsList_nil : WsList [] := by intro c hc; cases hc

theorem wsList_space : WsList [cSpace] := by
  intro c hc
  simp only [List.mem_singleton] at hc
  rw [hc]; decide

theorem skipWs_ws_cons (w : List Char) (hw : WsList w) (c : Char) (r : List Char)
    (hc : isWsC c = false) : skipWs (w ++ c :: r) = c :: r := by
  rw [skipWs_append_ws _ _ hw, skipWs_cons_not_ws _ _ hc]

/-! ### Parser completeness with respect to the printer -/

theorem jsize_pos (v : Json) : 1 ≤ jsize v := by
  cases v <;> simp [jsize]

theorem printV_head (P : PadStyle) (lvl : Nat) (v : Json) :
    ∃ c t, printV P lvl v = c :: t ∧ isWsC c = false
      ∧ (c == cRBrack) = false ∧ (c == cRBrace) = false
      ∧ (c == cComma) = false ∧ (c == cColon) = false := by
  cases v with
  | str s =>
    exact ⟨cQuote, escChars s.data ++ [cQuote], rfl, by decide, by decide, by decide,
      by decide, by decide⟩
  | arr elems =>
    cases elems with
    | nil => exact ⟨cLBrack, [cRBrack], rfl, by decide, by decide, by decide, by decide, by decide⟩
    | cons x xs =>
      exact ⟨cLBrack, P.openPad lvl ++ printV P (lvl + 1) x ++ printL P (lvl + 1) xs
        ++ P.closePad lvl ++ [cRBrack], rfl, by decide, by decide, by decide, by decide, by decide⟩
  | obj fields =>
    cases fields with
    | nil => exact ⟨cLBrace, [cRBrace], rfl, by decide, by decide, by decide, by decide, by decide⟩
    | cons f fs =>
      exact ⟨cLBrace, P.openPad lvl
        ++ (cQuote :: (escChars f.1.data ++ [cQuote]))
        ++ (cColon :: cSpace :: printV P (lvl + 1) f.2)
        ++ printF P (lvl + 1) fs
        ++ P.closePad lvl ++ [cRBrace], rfl, by decide, by decide, by decide, by decide, by decide⟩

theorem parser_complete (P : PadStyle) (W : WsPads P) : ∀ n : Nat,
    (∀ v lvl (w rest : List Char), WsList w → jsize v ≤ n →
      parseVal n (w ++ (printV P lvl v ++ rest)) = some (v, rest))
    ∧ (∀ x xs lvl (w w2 rest : List Char), WsList w → WsList w2 → jsizeL (x :: xs) ≤ n →
      parseElems n (w ++ (printV P lvl x ++ (printL P lvl xs ++ (w2 ++ cRBrack :: rest))))
        = some (x :: xs, rest))
    ∧ (∀ (k : String) v fs lvl (w w2 rest : List Char), WsList w → WsList w2 →
        jsizeF ((k, v) :: fs) ≤ n →
      parseFields n (w ++ (cQuote :: (escChars k.data
          ++ cQuote :: cColon :: cSpace :: (printV P lvl v
          ++ (printF P lvl fs ++ (w2 ++ cRBrace :: rest))))))
        = some ((k, v) :: fs, rest)) := by
  intro n
  induction n with
  | zero =>
    refine ⟨?_, ?_, ?_⟩
    · intro v lvl w rest hw hs
      have := jsize_pos v
      omega
    · intro x xs lvl w w2 rest hw hw2 hs
      simp [jsizeL] at hs
    · intro k v fs lvl w w2 rest hw hw2 hs
      simp [jsizeF] at hs
  | succ n ih =>
    obtain ⟨ihV, ihE, ihF⟩ := ih
    refine ⟨?_, ?_, ?_⟩
    · -- parseVal
      intro v lvl w rest hw hs
      cases v with
      | str s =>
        have harr : printV P lvl (Json.str s) ++ rest
            = cQuote :: (escChars s.data ++ cQuote :: rest) := by
          show (cQuote :: (escChars s.data ++ [cQuote])) ++ rest = _
          simp
        rw [harr]
        have hskip : skipWs (w ++ cQuote :: (escChars s.data ++ cQuote :: rest))
            = cQuote :: (escChars s.data ++ cQuote :: rest) :=
          skipWs_ws_cons w hw _ _ isWsC_cQuote
        simp only [parseVal, hskip, beq_self_eq_true, if_true, parseStrAux_esc]
      | arr elems =>
        cases elems with
        | nil =>
          have harr : printV P lvl (Json.arr []) ++ rest = cLBrack :: cRBrack :: rest := by
            show [cLBrack, cRBrack] ++ rest = _
            simp
          rw [harr]
          have hskip : skipWs (w ++ cLBrack :: cRBrack :: rest) = cLBrack :: cRBrack :: rest :=
            skipWs_ws_cons w hw _ _ isWsC_cLBrack
          have hskip2 : skipWs (cRBrack :: rest) = cRBrack :: rest :=
            skipWs_cons_not_ws _ _ isWsC_cRBrack
          simp only [parseVal, hskip, hskip2]
          simp [show (cLBrack == cQuote) = false by decide,
            show (cLBrack == cLBrack) = true by decide]
        | cons x xs =>
          have hsz : jsizeL (x :: xs) ≤ n := by
            simp only [jsize] at hs; omega
          have harr : printV P lvl (Json.arr (x :: xs)) ++ rest
              = cLBrack :: (P.openPad lvl ++ (printV P (lvl + 1) x
                ++ (printL P (lvl + 1) xs ++ (P.closePad lvl ++ cRBrack :: rest)))) := by
            show (cLBrack :: (P.openPad lvl ++ printV P (lvl + 1) x ++ printL P (lvl + 1) xs
              ++ P.closePad lvl ++ [cRBrack])) ++ rest = _
            simp
          rw [harr]
          have hskip : skipWs (w ++ cLBrack :: (P.openPad lvl ++ (printV P (lvl + 1) x
              ++ (printL P (lvl + 1) xs ++ (P.closePad lvl ++ cRBrack :: rest)))))
              = cLBrack :: (P.openPad lvl ++ (printV P (lvl + 1) x
                ++ (printL P (lvl + 1) xs ++ (P.closePad lvl ++ cRBrack :: rest)))) :=
            skipWs_ws_cons w hw _ _ isWsC_cLBrack
          obtain ⟨c0, t0, hx, hnws, hnrb, hnrb2, hnc, hncol⟩ := printV_head P (lvl + 1) x
          have hskip2 : skipWs (P.openPad lvl ++ (printV P (lvl + 1) x
              ++ (printL P (lvl + 1) xs ++ (P.closePad lvl ++ cRBrack :: rest))))
              = c0 :: (t0 ++ (printL P (lvl + 1) xs ++ (P.closePad lvl ++ cRBrack :: rest))) := by
            rw [hx]
            simp only [List.cons_append]
            exact skipWs_ws_cons _ (W.openW lvl) _ _ hnws
          simp only [parseVal, hskip, hskip2]
          simp only [show (cLBrack == cQuote) = false by decide,
            show (cLBrack == cLBrack) = true by decide, Bool.false_eq_true, if_false, if_true,
            hnrb]
          rw [ihE x xs (lvl + 1) (P.openPad lvl) (P.closePad lvl) rest
            (W.openW lvl) (W.closeW lvl) hsz]
      | obj fields =>
        cases fields with
        | nil =>
          have harr : printV P lvl (Json.obj []) ++ rest = cLBrace :: cRBrace :: rest := by
            show [cLBrace, cRBrace] ++ rest = _
            simp
          rw [harr]
          have hskip : skipWs (w ++ cLBrace :: cRBrace :: rest) = cLBrace :: cRBrace :: rest :=
            skipWs_ws_cons w hw _ _ isWsC_cLBrace
          have hskip2 : skipWs (cRBrace :: rest) = cRBrace :: rest :=
            skipWs_cons_not_ws _ _ isWsC_cRBrace
          simp only [parseVal, hskip, hskip2]
          simp [show (cLBrace == cQuote) = false by decide,
            show (cLBrace == cLBrack) = false by decide,
            show (cLBrace == cLBrace) = true by decide]
        | cons f fs =>
          have hsz : jsizeF ((f.1, f.2) :: fs) ≤ n := by
            simp only [jsize] at hs
            simp only [Prod.mk.eta]
            omega
          have harr : printV P lvl (Json.obj (f :: fs)) ++ rest
              = cLBrace :: (P.openPad lvl ++ (cQuote :: (escChars f.1.data
                ++ cQuote :: cColon :: cSpace :: (printV P (lvl + 1) f.2
                ++ (printF P (lvl + 1) fs ++ (P.closePad lvl ++ cRBrace :: rest)))))) := by
            show (cLBrace :: (P.openPad lvl
              ++ (cQuote :: (escChars f.1.data ++ [cQuote]))
              ++ (cColon :: cSpace :: printV P (lvl + 1) f.2)
              ++ printF P (lvl + 1) fs
              ++ P.closePad lvl ++ [cRBrace])) ++ rest = _
            simp
          rw [harr]
          have hskip : skipWs (w ++ cLBrace :: (P.openPad lvl ++ (cQuote :: (escChars f.1.data
              ++ cQuote :: cColon :: cSpace :: (printV P (lvl + 1) f.2
              ++ (printF P (lvl + 1) fs ++ (P.closePad lvl ++ cRBrace :: rest)))))))
              = cLBrace :: (P.openPad lvl ++ (cQuote :: (escChars f.1.data
                ++ cQuote :: cColon :: cSpace :: (printV P (lvl + 1) f.2
                ++ (printF P (lvl + 1) fs ++ (P.closePad lvl ++ cRBrace :: rest)))))) :=
            skipWs_ws_cons w hw _ _ isWsC_cLBrace
          have hskip2 : skipWs (P.openPad lvl ++ (cQuote :: (escChars f.1.data
              ++ cQuote :: cColon :: cSpace :: (printV P (lvl + 1) f.2
              ++ (printF P (lvl + 1) fs ++ (P.closePad lvl ++ cRBrace :: rest))))))
              = cQuote :: (escChars f.1.data
                ++ cQuote :: cColon :: cSpace :: (printV P (lvl + 1) f.2
                ++ (printF P (lvl + 1) fs ++ (P.closePad lvl ++ cRBrace :: rest)))) :=
            skipWs_ws_cons _ (W.openW lvl) _ _ isWsC_cQuote
          simp only [parseVal, hskip, hskip2]
          simp only [show (cLBrace == cQuote) = false by decide,
            show (cLBrace == cLBrack) = false by decide,
            show (cLBrace == cLBrace) = true by decide,
            show (cQuote == cRBrace) = false by decide, Bool.false_eq_true, if_false, if_true]
          rw [ihF f.1 f.2 fs (lvl + 1) (P.openPad lvl) (P.closePad lvl) rest
            (W.openW lvl) (W.closeW lvl) hsz]
    · -- parseElems
      intro x xs lvl w w2 rest hw hw2 hs
      have hszx : jsize x ≤ n := by
        simp only [jsizeL] at hs; omega
      simp only [parseElems]
      rw [ihV x lvl w (printL P lvl xs ++ (w2 ++ cRBrack :: rest)) hw hszx]
      cases xs with
      | nil =>
        have hr : printL P lvl ([] : List Json) ++ (w2 ++ cRBrack :: rest)
            = w2 ++ cRBrack :: rest := by
          show ([] : List Char) ++ (w2 ++ cRBrack :: rest) = _
          simp
        rw [hr]
        have hskip : skipWs (w2 ++ cRBrack :: rest) = cRBrack :: rest :=
          skipWs_ws_cons w2 hw2 _ _ isWsC_cRBrack
        simp only [hskip]
        simp [show (cRBrack == cComma) = false by decide,
          show (cRBrack == cRBrack) = true by decide]
      | cons y ys =>
        have hszy : jsizeL (y :: ys) ≤ n := by
          have h1 := jsize_pos x
          simp only [jsizeL] at hs ⊢
          omega
        have hr : printL P lvl (y :: ys) ++ (w2 ++ cRBrack :: rest)
            = cComma :: (P.sepPad lvl ++ (printV P lvl y
              ++ (printL P lvl ys ++ (w2 ++ cRBrack :: rest)))) := by
          show (cComma :: (P.sepPad lvl ++ printV P lvl y ++ printL P lvl ys))
            ++ (w2 ++ cRBrack :: rest) = _
          simp
        rw [hr]
        have hskip : skipWs (cComma :: (P.sepPad lvl ++ (printV P lvl y
            ++ (printL P lvl ys ++ (w2 ++ cRBrack :: rest)))))
            = cComma :: (P.sepPad lvl ++ (printV P lvl y
              ++ (printL P lvl ys ++ (w2 ++ cRBrack :: rest)))) :=
          skipWs_cons_not_ws _ _ isWsC_cComma
        simp only [hskip, beq_self_eq_true, if_true]
        rw [ihE y ys lvl (P.sepPad lvl) w2 rest (W.sepW lvl) hw2 hszy]
    · -- parseFields
      intro k v fs lvl w w2 rest hw hw2 hs
      have hszv : jsize v ≤ n := by
        simp only [jsizeF] at hs; omega
      simp only [parseFields]
      have hskip : skipWs (w ++ cQuote :: (escChars k.data
          ++ cQuote :: cColon :: cSpace :: (printV P lvl v
          ++ (printF P lvl fs ++ (w2 ++ cRBrace :: rest)))))
          = cQuote :: (escChars k.data
            ++ cQuote :: cColon :: cSpace :: (printV P lvl v
            ++ (printF P lvl fs ++ (w2 ++ cRBrace :: rest)))) :=
        skipWs_ws_cons w hw _ _ isWsC_cQuote
      rw [hskip]
      simp only [beq_self_eq_true, if_true, parseStrAux_esc]
      have hskip2 : skipWs (cColon :: cSpace :: (printV P lvl v
          ++ (printF P lvl fs ++ (w2 ++ cRBrace :: rest))))
          = cColon :: cSpace :: (printV P lvl v
            ++ (printF P lvl fs ++ (w2 ++ cRBrace :: rest))) :=
        skipWs_cons_not_ws _ _ isWsC_cColon
      simp only [hskip2, beq_self_eq_true, if_true]
      have hv : parseVal n (cSpace :: (printV P lvl v
          ++ (printF P lvl fs ++ (w2 ++ cRBrace :: rest))))
          = some (v, printF P lvl fs ++ (w2 ++ cRBrace :: rest)) := by
        have hshape : cSpace :: (printV P lvl v ++ (printF P lvl fs ++ (w2 ++ cRBrace :: rest)))
            = [cSpace] ++ (printV P lvl v ++ (printF P lvl fs ++ (w2 ++ cRBrace :: rest))) := by
          simp
        rw [hshape]
        exact ihV v lvl [cSpace] _ wsList_space hszv
      rw [hv]
      cases fs with
      | nil =>
        have hr : printF P lvl ([] : List (String × Json)) ++ (w2 ++ cRBrace :: rest)
            = w2 ++ cRBrace :: rest := by
          show ([] : List Char) ++ (w2 ++ cRBrace :: rest) = _
          simp
        rw [hr]
        have hskip3 : skipWs (w2 ++ cRBrace :: rest) = cRBrace :: rest :=
          skipWs_ws_cons w2 hw2 _ _ isWsC_cRBrace
        simp only [hskip3]
        simp [show (cRBrace == cComma) = false by decide,
          show (cRBrace == cRBrace) = true by decide]
      | cons g gs =>
        have hszg : jsizeF ((g.1, g.2) :: gs) ≤ n := by
          have h1 := jsize_pos v
          simp only [jsizeF] at hs ⊢
          omega
        have hr : printF P lvl (g :: gs) ++ (w2 ++ cRBrace :: rest)
            = cComma :: (P.sepPad lvl ++ (cQuote :: (escChars g.1.data
              ++ cQuote :: cColon :: cSpace :: (printV P lvl g.2
              ++ (printF P lvl gs ++ (w2 ++ cRBrace :: rest)))))) := by
          show (cComma :: (P.sepPad lvl
            ++ (cQuote :: (escChars g.1.data ++ [cQuote]))
            ++ (cColon :: cSpace :: printV P lvl g.2)
            ++ printF P lvl gs)) ++ (w2 ++ cRBrace :: rest) = _
          simp
        rw [hr]
        have hskip3 : skipWs (cComma :: (P.sepPad lvl ++ (cQuote :: (escChars g.1.data
            ++ cQuote :: cColon :: cSpace :: (printV P lvl g.2
            ++ (printF P lvl gs ++ (w2 ++ cRBrace :: rest)))))))
            = cComma :: (P.sepPad lvl ++ (cQuote :: (escChars g.1.data
              ++ cQuote :: cColon :: cSpace :: (printV P lvl g.2
              ++ (printF P lvl gs ++ (w2 ++ cRBrace :: rest)))))) :=
          skipWs_cons_not_ws _ _ isWsC_cComma
        simp only [hskip3, beq_self_eq_true, if_true]
        rw [ihF g.1 g.2 gs lvl (P.sepPad lvl) w2 rest (W.sepW lvl) hw2 hszg]

/-! ### Size bound and round trips -/

theorem sizes_le_print (P : PadStyle) : ∀ n : Nat,
    (∀ v lvl, jsize v ≤ n → jsize v ≤ (printV P lvl v).length)
    ∧ (∀ xs lvl, jsizeL xs ≤ n → jsizeL xs ≤ (printL P lvl xs).length)
    ∧ (∀ fs lvl, jsizeF fs ≤ n → jsizeF fs ≤ (printF P lvl fs).length) := by
  intro n
  induction n with
  | zero =>
    refine ⟨?_, ?_, ?_⟩
    · intro v lvl hs
      have := jsize_pos v
      omega
    · intro xs lvl hs
      cases xs with
      | nil => simp [jsizeL]
      | cons x xs => simp [jsizeL] at hs
    · intro fs lvl hs
      cases fs with
      | nil => simp [jsizeF]
      | cons f fs => simp [jsizeF] at hs
  | succ n ih =>
    obtain ⟨ihV, ihE, ihF⟩ := ih
    refine ⟨?_, ?_, ?_⟩
    · intro v lvl hs
      cases v with
      | str s =>
        simp [printV, jsize]
      | arr elems =>
        cases elems with
        | nil => simp [printV, jsize, jsizeL]
        | cons x xs =>
          have h1 : jsize x ≤ n := by simp only [jsize, jsizeL] at hs; omega
          have h2 : jsizeL xs ≤ n := by simp only [jsize, jsizeL] at hs; omega
          have e1 := ihV x (lvl + 1) h1
          have e2 := ihE xs (lvl + 1) h2
          simp only [jsize, jsizeL] at hs ⊢
          simp only [printV, List.length_cons, List.length_append, List.length_singleton]
          omega
      | obj fields =>
        cases fields with
        | nil => simp [printV, jsize, jsizeF]
        | cons f fs =>
          have h1 : jsize f.2 ≤ n := by simp only [jsize, jsizeF] at hs; omega
          have h2 : jsizeF fs ≤ n := by simp only [jsize, jsizeF] at hs; omega
          have e1 := ihV f.2 (lvl + 1) h1
          have e2 := ihF fs (lvl + 1) h2
          simp only [jsize, jsizeF] at hs ⊢
          simp only [printV, List.length_cons, List.length_append, List.length_singleton]
          omega
    · intro xs lvl hs
      cases xs with
      | nil => simp [jsizeL]
      | cons x xs =>
        have h1 : jsize x ≤ n := by simp only [jsizeL] at hs; omega
        have h2 : jsizeL xs ≤ n := by simp only [jsizeL] at hs; omega
        have e1 := ihV x lvl h1
        have e2 := ihE xs lvl h2
        simp only [jsizeL] at hs ⊢
        simp only [printL, List.length_cons, List.length_append]
        omega
    · intro fs lvl hs
      cases fs with
      | nil => simp [jsizeF]
      | cons f fs =>
        have h1 : jsize f.2 ≤ n := by simp only [jsizeF] at hs; omega
        have h2 : jsizeF fs ≤ n := by simp only [jsizeF] at hs; omega
        have e1 := ihV f.2 lvl h1
        have e2 := ihF fs lvl h2
        simp only [jsizeF] at hs ⊢
        simp only [printF, List.length_cons, List.length_append, List.length_singleton]
        omega

theorem jsize_le_printV (P : PadStyle) (v : Json) (lvl : Nat) :
    jsize v ≤ (printV P lvl v).length :=
  (sizes_le_print P (jsize v)).1 v lvl le_rfl

theorem jsonLoadsChars_printV (P : PadStyle) (W : WsPads P) (v : Json) :
    jsonLoadsChars (printV P 0 v) = some v := by
  unfold jsonLoadsChars
  have hsz : jsize v ≤ (printV P 0 v).length + 1 :=
    le_trans (jsize_le_printV P v 0) (Nat.le_succ _)
  have h := (parser_complete P W ((printV P 0 v).length + 1)).1 v 0 [] [] wsList_nil hsz
  simp only [List.nil_append, List.append_nil] at h
  rw [h]
  simp [skipWs]

theorem jsonLoads_jsonDumps (v : Json) : jsonLoads (jsonDumps v) = some v :=
  jsonLoadsChars_printV compactPads wsPads_compact v

theorem jsonLoads_jsonDumpsIndent (v : Json) : jsonLoads (jsonDumpsIndent v) = some v :=
  jsonLoadsChars_printV indentPads wsPads_indent v

/-! ### Fence-stripping lemmas -/

theorem sfa_cons_ne (x : Char) (r : List Char) (h : (x == cBacktick) = false) :
    stripFencesAux (x :: r) = x :: stripFencesAux r := by
  rcases r with _ | ⟨b, _ | ⟨c, _ | ⟨d, _ | ⟨e, _ | ⟨f, _ | ⟨g, r7⟩⟩⟩⟩⟩⟩ <;>
    simp [stripFencesAux, h]

theorem sfa_cons3_ne (a b c : Char) (rest : List Char)
    (h : (a == cBacktick && b == cBacktick && c == cBacktick) = false) :
    stripFencesAux (a :: b :: c :: rest) = a :: stripFencesAux (b :: c :: rest) := by
  rcases rest with _ | ⟨d, _ | ⟨e, _ | ⟨f, _ | ⟨g, r5⟩⟩⟩⟩ <;> simp [stripFencesAux, h]

theorem sfa_fence_cases (a b c : Char) (rest : List Char)
    (h : (a == cBacktick && b == cBacktick && c == cBacktick) = true) :
    stripFencesAux (a :: b :: c :: rest) = stripFencesAux rest
    ∨ stripFencesAux (a :: b :: c :: rest) = stripFencesAux (rest.drop 4) := by
  rcases rest with _ | ⟨d, _ | ⟨e, _ | ⟨f, _ | ⟨g, r5⟩⟩⟩⟩
  · left; simp [stripFencesAux, h]
  · left; simp [stripFencesAux, h]
  · left; simp [stripFencesAux, h]
  · left; simp [stripFencesAux, h]
  · by_cases hj : (d == cLetterJ && e == cLetterS && f == cLetterO && g == cLetterN) = true
    · right
      simp [stripFencesAux, h, hj]
    · left
      have hjf : (d == cLetterJ && e == cLetterS && f == cLetterO && g == cLetterN) = false := by
        simpa using hj
      simp [stripFencesAux, h, hjf]

theorem sfa_id_of_no_triple_aux :
    ∀ n l, List.length l ≤ n → hasTriple l = false → stripFencesAux l = l := by
  intro n
  induction n with
  | zero =>
    intro l hlen ht
    cases l with
    | nil => rfl
    | cons a r => simp at hlen
  | succ n ih =>
    intro l hlen ht
    rcases l with _ | ⟨a, _ | ⟨b, _ | ⟨c, rest⟩⟩⟩
    · rfl
    · rfl
    · rfl
    · simp only [hasTriple, Bool.or_eq_false_iff] at ht
      obtain ⟨h1, h2⟩ := ht
      rw [sfa_cons3_ne a b c rest h1]
      rw [ih (b :: c :: rest) (by simp at hlen ⊢; omega) h2]

theorem sfa_id_of_no_triple (l : List Char) (ht : hasTriple l = false) :
    stripFencesAux l = l :=
  sfa_id_of_no_triple_aux l.length l le_rfl ht

/-- Two leading backticks. -/
def headTicks2 : List Char → Bool
  | s1 :: s2 :: _ => s1 == cBacktick && s2 == cBacktick
  | _ => false

theorem hasTriple_cons (a : Char) (S : List Char) :
    hasTriple (a :: S) = ((a == cBacktick) && headTicks2 S || hasTriple S) := by
  rcases S with _ | ⟨s1, _ | ⟨s2, t⟩⟩ <;> simp [hasTriple, headTicks2, Bool.and_assoc]

theorem headTicks2_cons_ne (b : Char) (X : List Char) (hb : (b == cBacktick) = false) :
    headTicks2 (b :: X) = false := by
  cases X <;> simp [headTicks2, hb]

theorem hasTriple_sfa_aux :
    ∀ n l, List.length l ≤ n → hasTriple (stripFencesAux l) = false := by
  intro n
  induction n with
  | zero =>
    intro l hlen
    cases l with
    | nil => rfl
    | cons a r => simp at hlen
  | succ n ih =>
    intro l hlen
    rcases l with _ | ⟨a, _ | ⟨b, _ | ⟨c, rest⟩⟩⟩
    · simp [stripFencesAux, hasTriple]
    · simp [stripFencesAux, hasTriple]
    · simp [stripFencesAux, hasTriple]
    · simp only [List.length_cons] at hlen
      by_cases h3 : (a == cBacktick && b == cBacktick && c == cBacktick) = true
      · rcases sfa_fence_cases a b c rest h3 with h | h
        · rw [h]
          exact ih rest (by omega)
        · rw [h]
          exact ih (rest.drop 4) (by simp [List.length_drop]; omega)
      · have hne : (a == cBacktick && b == cBacktick && c == cBacktick) = false := by
          simpa using h3
        rw [sfa_cons3_ne a b c rest hne]
        have hS : hasTriple (stripFencesAux (b :: c :: rest)) = false :=
          ih (b :: c :: rest) (by simp; omega)
        rw [hasTriple_cons, hS, Bool.or_false]
        by_cases ha : (a == cBacktick) = true
        · have hbc : (b == cBacktick && c == cBacktick) = false := by
            rw [ha] at hne
            simpa using hne
          by_cases hb : (b == cBacktick) = true
          · have hc : (c == cBacktick) = false := by
              rw [hb] at hbc
              simpa using hbc
            rcases rest with _ | ⟨d, rest2⟩
            · have hbcl : stripFencesAux [b, c] = [b, c] := rfl
              rw [hbcl]
              simp [headTicks2, hc]
            · have hcond : (b == cBacktick && c == cBacktick && d == cBacktick) = false := by
                rw [hb, hc]
                simp
              rw [sfa_cons3_ne b c d rest2 hcond]
              rw [sfa_cons_ne c (d :: rest2) hc]
              simp [headTicks2, hc]
          · have hbf : (b == cBacktick) = false := by simpa using hb
            rw [sfa_cons_ne b (c :: rest) hbf]
            rw [headTicks2_cons_ne b _ hbf]
            simp
        · have haf : (a == cBacktick) = false := by simpa using ha
          rw [haf]
          simp

theorem hasTriple_sfa (l : List Char) : hasTriple (stripFencesAux l) = false :=
  hasTriple_sfa_aux l.length l le_rfl

/-! ### `strip()` is the identity on serialised values -/

theorem printV_last (P : PadStyle) (lvl : Nat) (v : Json) :
    ∃ l c, printV P lvl v = l ++ [c] ∧ isWsC c = false := by
  cases v with
  | str s =>
    exact ⟨cQuote :: escChars s.data, cQuote, by simp [printV], isWsC_cQuote⟩
  | arr elems =>
    cases elems with
    | nil => exact ⟨[cLBrack], cRBrack, rfl, isWsC_cRBrack⟩
    | cons x xs =>
      refine ⟨cLBrack :: (P.openPad lvl ++ printV P (lvl + 1) x ++ printL P (lvl + 1) xs
        ++ P.closePad lvl), cRBrack, ?_, isWsC_cRBrack⟩
      simp [printV]
  | obj fields =>
    cases fields with
    | nil => exact ⟨[cLBrace], cRBrace, rfl, isWsC_cRBrace⟩
    | cons f fs =>
      refine ⟨cLBrace :: (P.openPad lvl
        ++ (cQuote :: (escChars f.1.data ++ [cQuote]))
        ++ (cColon :: cSpace :: printV P (lvl + 1) f.2)
        ++ printF P (lvl + 1) fs
        ++ P.closePad lvl), cRBrace, ?_, isWsC_cRBrace⟩
      simp [printV]

theorem stripWsBoth_printV (P : PadStyle) (lvl : Nat) (v : Json) :
    stripWsBoth (printV P lvl v) = printV P lvl v := by
  obtain ⟨c, t, hct, hws, h1, h2, h3, h4⟩ := printV_head P lvl v
  obtain ⟨l, d, hld, hdws⟩ := printV_last P lvl v
  unfold stripWsBoth
  rw [hct, skipWs_cons_not_ws _ _ hws, ← hct, hld, List.reverse_append]
  simp only [List.reverse_singleton, List.singleton_append]
  rw [skipWs_cons_not_ws _ _ hdws]
  simp

/-- The normalizer is the identity on a serialised record whose text
contains no fence marker: fence removal and `strip()` do nothing and the
parse inverts the print. -/
theorem convert_jsonDumps (v : Json)
    (h : hasTriple (printV compactPads 0 v) = false) :
    convert_llm_output_to_dict (jsonDumps v) = some v := by
  unfold convert_llm_output_to_dict
  have hdata : (jsonDumps v).data = printV compactPads 0 v := rfl
  rw [hdata, sfa_id_of_no_triple _ h, stripWsBoth_printV]
  exact jsonLoadsChars_printV compactPads wsPads_compact v

/-! ### Derived-key lemmas -/

theorem toNat_ofNat_valid (n : Nat) (h : Nat.isValidChar n) :
    (Char.ofNat n).toNat = n := by
  unfold Char.ofNat
  rw [dif_pos h]
  rfl

theorem lowerAscii_ne_space (c : Char) (h : c ≠ cSpace) : lowerAscii c ≠ cSpace := by
  unfold lowerAscii
  by_cases hr : 65 ≤ c.toNat ∧ c.toNat ≤ 90
  · rw [if_pos hr]
    intro he
    have hv : Nat.isValidChar (c.toNat + 32) := Or.inl (by omega)
    have hn : (Char.ofNat (c.toNat + 32)).toNat = c.toNat + 32 := toNat_ofNat_valid _ hv
    rw [he] at hn
    have h32 : cSpace.toNat = 32 := by decide
    omega
  · rw [if_neg hr]
    exact h

theorem lower_s2u_comm (c : Char) :
    lowerAscii (spaceToUnderscore c) = spaceToUnderscore (lowerAscii c) := by
  by_cases h : c == cSpace
  · have hc : c = cSpace := eq_of_beq h
    subst hc
    decide
  · have hf : (c == cSpace) = false := by simpa using h
    have hcne : c ≠ cSpace := by
      intro he
      rw [he] at hf
      simp at hf
    have h2f : (lowerAscii c == cSpace) = false := by
      have h2 := lowerAscii_ne_space c hcne
      simpa using h2
    unfold spaceToUnderscore
    rw [hf, h2f]
    simp

theorem pyLower_pyReplace_comm (s : String) :
    pyLower (pyReplaceSpaceUnderscore s) = pyReplaceSpaceUnderscore (pyLower s) := by
  unfold pyLower pyReplaceSpaceUnderscore
  simp only [List.map_map]
  have hfe : (lowerAscii ∘ spaceToUnderscore) = (spaceToUnderscore ∘ lowerAscii) :=
    funext lower_s2u_comm
  rw [hfe]

/-! ### Per-page resilience lemmas -/

theorem map_getD_set (l : List (Option String)) (i : Nat) (h : i < l.length)
    (hnone : l.get ⟨i, h⟩ = none) :
    (l.set i (some "")).map (fun p => (p.getD "").data) = l.map (fun p => (p.getD "").data) := by
  induction l generalizing i with
  | nil => simp at h
  | cons x xs ih =>
    cases i with
    | zero =>
      simp only [List.get] at hnone
      subst hnone
      simp [List.set]
    | succ j =>
      simp only [List.set, List.map, List.cons.injEq]
      refine ⟨trivial, ?_⟩
      exact ih j (by simpa using h) (by simpa using hnone)

theorem joinedPlumber_set (pages : List (Option String)) (i : Nat) (h : i < pages.length)
    (hfail : pages.get ⟨i, h⟩ = none) :
    joinedPlumber (pages.set i (some "")) = joinedPlumber pages := by
  unfold joinedPlumber
  rw [map_getD_set pages i h hfail]

/-! ### Flat-file archive lemmas -/

theorem appendAllRecords_step (rs : List Json) :
    ∀ xs : List Json,
      appendAllRecords (some (jsonDumpsIndent (Json.arr xs))) rs
        = .ok (some (jsonDumpsIndent (Json.arr (xs ++ rs)))) := by
  induction rs with
  | nil => intro xs; simp [appendAllRecords]
  | cons r rs ih =>
    intro xs
    simp only [appendAllRecords, save_to_json, jsonLoads_jsonDumpsIndent]
    rw [ih (xs ++ [r])]
    simp

theorem convert_empty_none : convert_llm_output_to_dict "" = none := rfl

theorem save_to_chromadb_cases (coll : List ChromaEntry) (d : String) :
    (save_to_chromadb coll d).1 = coll
    ∨ ∃ rd key, convert_llm_output_to_dict d = some rd
        ∧ candidate_name_of rd = some key
        ∧ key ∉ coll.map (fun e => e.id)
        ∧ (save_to_chromadb coll d).1 = coll ++ [⟨key, jsonDumps rd, dict_get_name rd⟩] := by
  unfold save_to_chromadb
  cases h0 : d.data.isEmpty with
  | true => left; simp
  | false =>
    simp only [Bool.false_eq_true, if_false]
    cases hc : convert_llm_output_to_dict d with
    | none => left; simp
    | some rd =>
      cases ht : pyTruthy rd with
      | false => left; simp [ht]
      | true =>
        simp only [ht]
        cases hk : candidate_name_of rd with
        | none => left; simp
        | some key =>
          by_cases hm : key ∈ coll.map (fun e => e.id)
          · left; simp [hm]
          · right
            exact ⟨rd, key, rfl, hk, hm, by simp [hm]⟩

theorem save_to_chromadb_nodup_step (coll : List ChromaEntry) (d : String)
    (h : (coll.map (fun e => e.id)).Nodup) :
    (((save_to_chromadb coll d).1).map (fun e => e.id)).Nodup := by
  rcases save_to_chromadb_cases coll d with h1 | ⟨rd, key, hc, hk, hm, h1⟩
  · rw [h1]; exact h
  · rw [h1]
    simp only [List.map_append, List.map_cons, List.map_nil]
    rw [List.nodup_append]
    refine ⟨h, List.nodup_singleton key, ?_⟩
    intro a ha hb
    simp only [List.mem_singleton] at hb
    subst hb
    exact hm ha

theorem upsertAll_nodup (ds : List String) :
    ∀ coll : List ChromaEntry, (coll.map (fun e => e.id)).Nodup →
      ((upsertAll coll ds).map (fun e => e.id)).Nodup := by
  induction ds with
  | nil => intro coll h; exact h
  | cons d ds ih =>
    intro coll h
    have hstep := save_to_chromadb_nodup_step coll d h
    have : upsertAll coll (d :: ds) = upsertAll ((save_to_chromadb coll d).1) ds := rfl
    rw [this]
    exact ih _ hstep

theorem string_empty_of_isEmpty (d : String) (h : d.data.isEmpty = true) : d = "" := by
  cases d with
  | mk l =>
    have hl : l = [] := by
      cases l with
      | nil => rfl
      | cons a r => simp [List.isEmpty] at h
    subst hl
    rfl

theorem save_to_chromadb_data_nonempty (d : String) (rd : Json)
    (hc : convert_llm_output_to_dict d = some rd) : d.data.isEmpty = false := by
  cases h0 : d.data.isEmpty with
  | false => rfl
  | true =>
    exfalso
    have hd : d = "" := string_empty_of_isEmpty d h0
    rw [hd, convert_empty_none] at hc
    exact Option.noConfusion hc

theorem save_to_chromadb_skip (coll : List ChromaEntry) (d : String) (rd : Json) (key : String)
    (hc : convert_llm_output_to_dict d = some rd) (ht : pyTruthy rd = true)
    (hk : candidate_name_of rd = some key) (hm : key ∈ coll.map (fun e => e.id)) :
    save_to_chromadb coll d = (coll, ChromaOutcome.skippedDuplicate key) := by
  unfold save_to_chromadb
  simp only [save_to_chromadb_data_nonempty d rd hc, Bool.false_eq_true, if_false, hc, ht, hk]
  simp [hm]

theorem save_to_chromadb_insert (coll : List ChromaEntry) (d : String) (rd : Json) (key : String)
    (hc : convert_llm_output_to_dict d = some rd) (ht : pyTruthy rd = true)
    (hk : candidate_name_of rd = some key) (hm : key ∉ coll.map (fun e => e.id)) :
    save_to_chromadb coll d
      = (coll ++ [⟨key, jsonDumps rd, dict_get_name rd⟩], ChromaOutcome.inserted key) := by
  unfold save_to_chromadb
  simp only [save_to_chromadb_data_nonempty d rd hc, Bool.false_eq_true, if_false, hc, ht, hk]
  simp [hm]

/-! ### TextExtractor lemmas -/

/-- C1: IndexedStoreSink dedup invariant.  (i) Along any sequence of
`save_to_chromadb` calls identifiers stay unique; (ii) when the derived key
of a new record already exists among the collection identifiers the call
reports a duplicate skip and returns the collection unchanged; (iii) two
records normalising to the same derived key yield exactly one stored entry
(the first), the second call reporting the duplicate skip. -/
theorem C1_indexed_store_dedup :
    (∀ (coll : List ChromaEntry) (ds : List String),
      (coll.map (fun e => e.id)).Nodup →
      ((upsertAll coll ds).map (fun e => e.id)).Nodup)
    ∧ (∀ (coll : List ChromaEntry) (d : String) (rd : Json) (key : String),
      convert_llm_output_to_dict d = some rd → pyTruthy rd = true →
      candidate_name_of rd = some key → key ∈ coll.map (fun e => e.id) →
      save_to_chromadb coll d = (coll, ChromaOutcome.skippedDuplicate key))
    ∧ (∀ (coll : List ChromaEntry) (d1 d2 : String) (rd1 rd2 : Json) (key : String),
      convert_llm_output_to_dict d1 = some rd1 → pyTruthy rd1 = true →
      candidate_name_of rd1 = some key →
      convert_llm_output_to_dict d2 = some rd2 → pyTruthy rd2 = true →
      candidate_name_of rd2 = some key →
      key ∉ coll.map (fun e => e.id) →
      save_to_chromadb coll d1
        = (coll ++ [⟨key, jsonDumps rd1, dict_get_name rd1⟩], ChromaOutcome.inserted key)
      ∧ save_to_chromadb (coll ++ [⟨key, jsonDumps rd1, dict_get_name rd1⟩]) d2
        = (coll ++ [⟨key, jsonDumps rd1, dict_get_name rd1⟩],
            ChromaOutcome.skippedDuplicate key)) := by
  refine ⟨fun coll ds h => upsertAll_nodup ds coll h, save_to_chromadb_skip, ?_⟩
  intro coll d1 d2 rd1 rd2 key hc1 ht1 hk1 hc2 ht2 hk2 hm
  refine ⟨save_to_chromadb_insert coll d1 rd1 key hc1 ht1 hk1 hm, ?_⟩
  apply save_to_chromadb_skip _ d2 rd2 key hc2 ht2 hk2
  simp

/-- Witness for C1: inserting a record named "John Doe" into the empty
collection, then a record named "john doe" (the same derived key
"john_doe"), stores exactly the first entry and the second call reports
the duplicate skip. -/
theorem C1_indexed_store_dedup_witness :
    save_to_chromadb [] "\x7b\"name\": \"John Doe\"\x7d"
      = ([⟨"john_doe", jsonDumps (Json.obj [("name", Json.str "John Doe")]),
            Json.str "John Doe"⟩], ChromaOutcome.inserted "john_doe")
    ∧ save_to_chromadb
        [⟨"john_doe", jsonDumps (Json.obj [("name", Json.str "John Doe")]),
            Json.str "John Doe"⟩] "\x7b\"name\": \"john doe\"\x7d"
      = ([⟨"john_doe", jsonDumps (Json.obj [("name", Json.str "John Doe")]),
            Json.str "John Doe"⟩], ChromaOutcome.skippedDuplicate "john_doe") := by
  have h := C1_indexed_store_dedup.2.2 []
    ("\x7b\"name\": \"John Doe\"\x7d") ("\x7b\"name\": \"john doe\"\x7d")
    (Json.obj [("name", Json.str "John Doe")]) (Json.obj [("name", Json.str "john doe")])
    "john_doe" rfl rfl rfl rfl rfl rfl (by simp)
  simpa using h

/-- C4 counterexample: the record whose "name" value is a triple backtick
serialises to text containing a fence marker; normalising that serialised
text strips the backticks and returns a different record, so
`normalize(serialize(r)) = r` fails. -/
theorem C4_roundtrip_counterexample :
    convert_llm_output_to_dict (jsonDumps (Json.obj [("name", Json.str "```")]))
      = some (Json.obj [("name", Json.str "")])
    ∧ Json.obj [("name", Json.str "")] ≠ Json.obj [("name", Json.str "```")] := by
  refine ⟨rfl, ?_⟩
  intro h
  simp only [Json.obj.injEq, List.cons.injEq, Prod.mk.injEq, Json.str.injEq, and_true,
    true_and] at h
  exact absurd h (by decide)

/-- C4 (amended): the normalizer is the identity on the serialised text of
every record whose serialisation contains no fence marker (no three
consecutive backticks): `normalize(serialize(r)) = r`. -/
theorem C4_roundtrip_no_fence (v : Json)
    (h : hasTriple (printV compactPads 0 v) = false) :
    convert_llm_output_to_dict (jsonDumps v) = some v :=
  convert_jsonDumps v h

/-- Witness for C4 (amended): round trip at the record with name "A". -/
theorem C4_roundtrip_no_fence_witness :
    convert_llm_output_to_dict (jsonDumps (Json.obj [("name", Json.str "A")]))
      = some (Json.obj [("name", Json.str "A")]) :=
  C4_roundtrip_no_fence (Json.obj [("name", Json.str "A")]) (by decide)

/-- C5: fence stripping.  (i) For every model response the fence-removal
pass leaves no occurrence of a fence delimiter (three consecutive
backticks) in its output; (ii) the input consisting of the tagged opening
fence, a newline, the payload, a newline and the closing fence normalizes
to the parsed payload record. -/
theorem C5_fence_stripping :
    (∀ s : String, hasTriple (stripFencesAux s.data) = false)
    ∧ convert_llm_output_to_dict "```json\n\x7b\"name\":\"A\"\x7d\n```"
        = some (Json.obj [("name", Json.str "A")]) :=
  ⟨fun s => hasTriple_sfa s.data, rfl⟩

/-- C6: FlatFileSink.append is cumulative.  Appending the records
`r :: rs` sequentially starting from an absent target file yields a file
whose content is the indent-serialised array of exactly those records in
insertion order, and parsing that content returns that array (hence an
array of length N for N appends). -/
theorem C6_flatfile_append_cumulative (r : Json) (rs : List Json) :
    appendAllRecords none (r :: rs) = .ok (some (jsonDumpsIndent (Json.arr (r :: rs))))
    ∧ jsonLoads (jsonDumpsIndent (Json.arr (r :: rs))) = some (Json.arr (r :: rs)) := by
  refine ⟨?_, jsonLoads_jsonDumpsIndent _⟩
  have h1 : save_to_json none r = .ok (jsonDumpsIndent (Json.arr [r])) := rfl
  simp only [appendAllRecords, h1]
  rw [appendAllRecords_step rs [r]]
  simp

/-- C7: per-page resilience.  A page on which `page.extract_text()` fails
contributes exactly the empty string: the concatenated text, and hence the
whole strategy result, are the same as if that page had yielded `""`; the
strategy continues over the remaining pages rather than aborting. -/
theorem C7_per_page_resilience (pages : List (Option String)) (i : Nat)
    (h : i < pages.length) (hfail : pages.get ⟨i, h⟩ = none)
    (fz : Except Unit (List String)) :
    joinedPlumber pages = joinedPlumber (pages.set i (some ""))
    ∧ extract_text_with_pdfplumber ⟨.ok pages, fz⟩
        = extract_text_with_pdfplumber ⟨.ok (pages.set i (some "")), fz⟩ := by
  have hj := joinedPlumber_set pages i h hfail
  refine ⟨hj.symm, ?_⟩
  unfold extract_text_with_pdfplumber
  simp only [hj]

/-- Witness for C7: a three-page document whose middle page fails
contributes the empty string for that page. -/
theorem C7_per_page_resilience_witness :
    joinedPlumber [some "a", none, some "b"]
      = joinedPlumber ([some "a", none, some "b"].set 1 (some ""))
    ∧ extract_text_with_pdfplumber ⟨.ok [some "a", none, some "b"], .ok []⟩
        = extract_text_with_pdfplumber
            ⟨.ok ([some "a", none, some "b"].set 1 (some "")), .ok []⟩ :=
  C7_per_page_resilience [some "a", none, some "b"] 1 (by decide) rfl (.ok [])

/-- C8: derived-key derivation.  The key computed by the code
(`.replace(' ', '_').lower()` on the name field, defaulting to "Unknown")
equals the spec's description (the name field if present else "Unknown",
lower-cased, with every space replaced by an underscore); in particular a
record named "John Doe" derives the key "john_doe". -/
theorem C8_derived_key :
    (∀ r : Json, candidate_name_of r = specDerivedKey r)
    ∧ candidate_name_of (Json.obj [("name", Json.str "John Doe")]) = some "john_doe" := by
  refine ⟨?_, rfl⟩
  intro r
  cases r with
  | str s => rfl
  | arr xs => rfl
  | obj fields =>
    unfold candidate_name_of specDerivedKey
    cases h : fields.lookup "name" with
    | none => simp [h, pyLower_pyReplace_comm]
    | some v =>
      cases v with
      | str s => simp [h, pyLower_pyReplace_comm]
      | arr xs => simp [h]
      | obj fs => simp [h]

/-- C9: evaluation at the failing input.  A PDF whose text extracts
successfully combined with a failed model call (the Groq call raised, so
`extract_entities_with_groq` returned `None`) makes the run crash —
`convert_llm_output_to_dict(None)` raises an uncaught `TypeError` — before
`os.remove(temp_path)` executes: the staging artifact is not removed. -/
theorem C9_cleanup_not_reached :
    (runApp ⟨.ok [some "John Doe resume"], .ok []⟩ none none).modelCalled = true
    ∧ (runApp ⟨.ok [some "John Doe resume"], .ok []⟩ none none).crashed = true
    ∧ (runApp ⟨.ok [some "John Doe resume"], .ok []⟩ none none).tempRemoved = false :=
  ⟨rfl, rfl, rfl⟩

/-- C10: the empty object is valid object-like JSON, yet both pipelines
treat it as absent: the flat-file pipeline shows no success and persists
nothing, and the indexed-store sink reports the parse-failure message and
inserts nothing. -/
theorem C10_empty_object_treated_absent :
    convert_llm_output_to_dict "\x7b\x7d" = some (Json.obj [])
    ∧ pyTruthy (Json.obj []) = false
    ∧ (runApp ⟨.ok [some "resume"], .ok []⟩ (some "\x7b\x7d") none).persisted = false
    ∧ (runApp ⟨.ok [some "resume"], .ok []⟩ (some "\x7b\x7d") none).successShown = false
    ∧ (runApp ⟨.ok [some "resume"], .ok []⟩ (some "\x7b\x7d") none).archive = none
    ∧ (runApp ⟨.ok [some "resume"], .ok []⟩ (some "\x7b\x7d") none).tempRemoved = true
    ∧ save_to_chromadb [] "\x7b\x7d" = ([], ChromaOutcome.parseFailed) :=
  ⟨rfl, rfl, rfl, rfl, rfl, rfl, rfl⟩

end ResumeScanner
